import Mathlib

/-!
Verification of the turnilo repository fragment: the value/label formatter
(src/common/utils/formatter/formatter.ts), the measures-definition converter
(same file), and the resizable dimension/measure panel component.

JavaScript numbers are modelled as an inductive type separating the finite
values (as rationals) from NaN and the two infinities; machine floating-point
rounding plays no role in any of the verified properties.  External libraries
(numeral, immutable, chronoshift) are modelled by their documented behaviour as
assumed by this code; repository code that is outside the fragment (createMeasures,
clamp, STRINGS, formatTimeRange, the ResizeHandle drag contract) is modelled from
the specification and marked as such.
-/

/-- A JavaScript number: NaN, +Infinity, -Infinity, or a finite value
(modelled as a rational). -/
inductive JSNumber
  | nan
  | posInf
  | negInf
  | num (q : ℚ)
deriving DecidableEq, Repr

/-- The filtering loop of `getMiddleNumber`: drop entries that are `0`, NaN or
non-finite, keep the absolute value of the rest
(formatter.ts lines 52-56). -/
def filteredAbs (values : List JSNumber) : List ℚ :=
  values.filterMap fun v =>
    match v with
    | JSNumber.num q => if q = 0 then none else some |q|
    | _ => none

/-- JS `Math.ceil(k / 2)` for a natural numerator: the ceiling of the exact
rational `k / 2` (proved equal to the real ceiling below). -/
def ceilDiv2 (k : ℕ) : ℕ := (k + 1) / 2

/-- Embedding of `getMiddleNumber` (formatter.ts lines 51-65): filters with `filteredAbs`,
sorts descending (JS comparator `(a, b) => b - a`), and returns the element at
index `Math.ceil((n - 1) / 2)`; returns `0` when nothing is left.
The JS index computation is over exact values here (the index is a small
integer, where double rounding cannot occur). -/
def getMiddleNumber (values : List JSNumber) : ℚ :=
  let filteredAbsData := filteredAbs values
  let n := filteredAbsData.length
  if n ≠ 0 then
    (List.insertionSort (fun a b : ℚ => b ≤ a) filteredAbsData).getD (ceilDiv2 (n - 1)) 0
  else 0

/-- Spec-side definition (for comparison with `getMiddleNumber`): the element
at ascending-sorted index `(n - 1) / 2`, i.e. the smaller of the two middle
candidates when the count is even. -/
def lowerMedian (l : List ℚ) : ℚ :=
  (List.insertionSort (fun a b : ℚ => a ≤ b) l).getD ((l.length - 1) / 2) 0

/-- Decimal digit character for `n % 10`. -/
def digitChar (n : ℕ) : Char :=
  match n % 10 with
  | 0 => '0' | 1 => '1' | 2 => '2' | 3 => '3' | 4 => '4'
  | 5 => '5' | 6 => '6' | 7 => '7' | 8 => '8' | _ => '9'

/-- Decimal digit list with explicit fuel (the fuel is enough whenever it
exceeds the number of digits; it keeps the recursion structural). -/
def natDigitsGo (fuel : ℕ) (n : ℕ) : List Char :=
  match fuel with
  | 0 => []
  | fuel + 1 =>
    if n < 10 then [digitChar n]
    else natDigitsGo fuel (n / 10) ++ [digitChar (n % 10)]

/-- Decimal digit list of a natural number (most significant first). -/
def natDigits (n : ℕ) : List Char := natDigitsGo (n + 1) n

/-- Decimal string of a natural number, the JS `String(n)` of a nonnegative
integer. -/
def natRepr (n : ℕ) : String := String.mk (natDigits n)

/-- Decimal string of an integer, the JS `String(z)` of an integral double. -/
def intRepr (z : ℤ) : String :=
  if z < 0 then "-" ++ String.mk (natDigits z.natAbs) else String.mk (natDigits z.natAbs)

/-- Round-half-up on the rationals, written over the numerator and
denominator so that it evaluates; proved equal to the real `round` below. -/
def roundHalfUp (q : ℚ) : ℤ := (2 * q.num + q.den) / (2 * (q.den : ℤ))

/-- Model of the numeral library's rendering of a finite value under the plain
numeric format `"0"` (round to integer).  Used inside the `"0 a"` / `"0 b"`
formats, whose numeric part is `"0"`. -/
def renderInt (q : ℚ) : String := intRepr (roundHalfUp q)

/-- Model of the numeral library's rendering of a finite value under an
arbitrary plain format string.  The locale details (separators, decimals) of
the library are not modelled: no verified property depends on them, only on
which inputs reach which format.  The format argument is kept so that distinct
call sites remain distinct. -/
def renderPlain (fmt : String) (q : ℚ) : String :=
  if fmt = "" then renderInt q else renderInt q

/-- Model of the numeral library's rendering of the non-number NaN under a
plain format string — the text the program emits when the `scales` lookup
misses and `n / undefined` poisons the input to NaN.  Its exact text is
irrelevant to the verified properties, only that it is what every finite
input degrades to on that path. -/
def renderNaN (fmt : String) : String :=
  if fmt = "" then "NaN" else "NaN"

/-- The abbreviation suffix table of the numeral library's `a` format, largest
first: `t`, `b`, `m`, `k` at 10^12, 10^9, 10^6, 10^3. -/
def abbrSuffixes : List (String × ℚ) :=
  [("t", 1000000000000), ("b", 1000000000), ("m", 1000000), ("k", 1000)]

/-- The byte suffix table of the numeral library's `b` format as assumed by
this module's `scales` table: powers of 1024, largest first. -/
def byteSuffixes : List (String × ℚ) :=
  [("YB", 1024^8), ("ZB", 1024^7), ("EB", 1024^6), ("PB", 1024^5),
   ("TB", 1024^4), ("GB", 1024^3), ("MB", 1024^2), ("KB", 1024), ("B", 1)]

/-- Model of `numeral(q).format("0 a")`: pick the largest abbreviation whose
threshold is at most `|q|`, divide by it, render, and append the suffix after
the space kept from the format template (the space remains, with an empty
suffix, when the magnitude is below 1000). -/
def numeralAbbr (q : ℚ) : String :=
  match abbrSuffixes.find? (fun p => decide (p.2 ≤ |q|)) with
  | some p => renderInt (q / p.2) ++ " " ++ p.1
  | none => renderInt q ++ " "

/-- Model of `numeral(q).format("0 b")`: pick the largest byte suffix whose
scale is at most `|q|`, divide by it, render, and append the suffix.  For
magnitudes below the base scale 1 (in particular 0) no power matches, the
suffix is empty, and only the space kept from the format template remains —
the unit split out downstream is then the empty string, which the module's
`scales.b` table has no key for. -/
def numeralBytes (q : ℚ) : String :=
  match byteSuffixes.find? (fun p => decide (p.2 ≤ |q|)) with
  | some p => renderInt (q / p.2) ++ " " ++ p.1
  | none => renderInt q ++ " "

/-- Model of `numeral(q).format(fmt)` on the formats this module constructs:
the two abbreviated formats `"0 a"` and `"0 b"`, and plain formats otherwise. -/
def numeralFormat (q : ℚ) (fmt : String) : String :=
  if fmt = "0 a" then numeralAbbr q
  else if fmt = "0 b" then numeralBytes q
  else renderPlain fmt q

/-- Model of JS `String.prototype.split(" ")`: cut the character list at every
space, keeping empty pieces. -/
def splitSpaceAux : List Char → List Char → List (List Char)
  | [], cur => [cur]
  | c :: rest, cur =>
      if c = ' ' then cur :: splitSpaceAux rest [] else splitSpaceAux rest (cur ++ [c])

/-- JS `s.split(" ")` as a list of strings. -/
def splitSpace (s : String) : List String :=
  (splitSpaceAux s.data []).map String.mk

/-- The whitespace class of the JS regex `\s` (the characters relevant to
format strings). -/
def jsWhitespace (c : Char) : Bool :=
  c = ' ' || c = '\t' || c = '\n' || c = '\r' || c = '\x0b' || c = '\x0c'

/-- Model of matching `format` against the regex of `formatterFromData`
(formatter.ts line 68): full-string match of non-whitespace characters, an
optional single space, and a final `a` or `b`; returns the three capture
groups. -/
def matchFormatAux (cs : List Char) : Option (List Char × List Char × Char) :=
  match cs.getLast? with
  | none => none
  | some c =>
    if c = 'a' ∨ c = 'b' then
      let p := cs.dropLast
      if p.all (fun x => !jsWhitespace x) then some (p, [], c)
      else if p.getLast? = some ' ' ∧ p.dropLast.all (fun x => !jsWhitespace x) then
        some (p.dropLast, [' '], c)
      else none
    else none

/-- Embedding of `format.match` of formatter.ts line 68 at the string level. -/
def matchFormat (format : String) : Option (String × String × Char) :=
  (matchFormatAux format.data).map
    (fun r => (String.mk r.1, String.mk r.2.1, r.2.2))

/-- The `a` row of the `scales` table (formatter.ts lines 31-37). -/
def scalesA : List (String × ℚ) :=
  [("", 1), ("k", 1000), ("m", 1000000), ("b", 1000000000), ("t", 1000000000000)]

/-- The `b` row of the `scales` table (formatter.ts lines 38-48). -/
def scalesB : List (String × ℚ) :=
  [("B", 1), ("KB", 1024), ("MB", 1024^2), ("GB", 1024^3), ("TB", 1024^4),
   ("PB", 1024^5), ("EB", 1024^6), ("ZB", 1024^7), ("YB", 1024^8)]

/-- Embedding of `scales[formatType][unit]` (formatter.ts line 76).  A missing
key is `undefined` in JS — which happens for the empty unit of the byte format
at magnitudes below 1, since `scales.a` has the `""` key (line 32) but
`scales.b` does not (lines 38-48) — so the lookup returns an option; the
formatter's division by a missing scale poisons its result to NaN. -/
def scalesLookup (formatType : Char) (unit : String) : Option ℚ :=
  (if formatType = 'b' then scalesB else scalesA).lookup unit

/-- Embedding of `formatterFromData` (formatter.ts lines 67-89).  Returns the formatting
function; non-finite inputs short-circuit to the sentinel string. -/
def formatterFromData (values : List JSNumber) (format : String) : JSNumber → String :=
  match matchFormat format with
  | some (numberFormat, space, formatType) =>
    let middle := getMiddleNumber values
    let formatMiddle := numeralFormat middle ("0 " ++ String.singleton formatType)
    let unit := (splitSpace formatMiddle).getD 1 ""
    let scale := scalesLookup formatType unit
    let append := if unit = "" then "" else space ++ unit
    fun n =>
      match n with
      | JSNumber.num q =>
        (match scale with
         | some s => numeralFormat (q / s) numberFormat
         | none => renderNaN numberFormat) ++ append
      | _ => "-"
  | none =>
    fun n =>
      match n with
      | JSNumber.num q => numeralFormat q format
      | _ => "-"

/-- Spec-side definition (for comparison): the unit the number-formatting
library itself selects at magnitude `q` for format type `'a'` or `'b'` — the
empty string when no threshold is reached. -/
def unitChoice (formatType : Char) (q : ℚ) : String :=
  if formatType = 'b' then
    (byteSuffixes.find? (fun p => decide (p.2 ≤ |q|))).elim "" (fun p => p.1)
  else
    (abbrSuffixes.find? (fun p => decide (p.2 ≤ |q|))).elim "" (fun p => p.1)

/-- Spec-side definition (for comparison): the divisor the library itself uses
at magnitude `q` — 1 when no threshold is reached and the value is left
undivided. -/
def libScale (formatType : Char) (q : ℚ) : ℚ :=
  ((if formatType = 'b' then byteSuffixes else abbrSuffixes).find?
      (fun p => decide (p.2 ≤ |q|))).elim 1 (fun p => p.2)

/-- A timezone (chronoshift `Timezone`), opaque to the verified properties. -/
abbrev Timezone := String

/-- Modelled from the spec: the `DisplayYear` mode of
src/common/utils/time/time.ts, which is not part of the fragment; only the
`IF_DIFF` variant is mentioned (used by fixed time clauses). -/
inductive DisplayYear
  | ALWAYS
  | NEVER
  | IF_DIFF
deriving DecidableEq, Repr

/-- A plywood `TimeRange` value, reduced to its two instants (epoch
milliseconds); its rendering is opaque to the verified properties. -/
structure TimeRange where
  start : ℤ
  finish : ℤ
deriving DecidableEq, Repr

/-- Modelled from the spec: `formatTimeRange` of
src/common/utils/time/time.ts (not in the fragment) renders a time range as a
locale/timezone-aware string; every verified property treats its text as
opaque, only the dispatch to it matters. -/
def formatTimeRange (r : TimeRange) (_tz : Option Timezone) (_dy : Option DisplayYear) : String :=
  intRepr r.start ++ " - " ++ intRepr r.finish

/-- The runtime value shapes `formatValue` dispatches on: a plywood
`NumberRange` (either bound absent when open), a plywood `TimeRange`, a plain
number, a string, or `undefined`. -/
inductive JSValue
  | numberRange (start finish : Option ℚ)
  | timeRange (r : TimeRange)
  | number (q : ℚ)
  | str (s : String)
  | undef
deriving DecidableEq, Repr

/-- JS string coercion `"" + value` of a finite number.  Integral values print
as their decimal integer; the decimal rendering of non-integral doubles is
abridged (no verified property formats a non-integral scalar). -/
def numToString (q : ℚ) : String :=
  if q.den = 1 then intRepr q.num else intRepr q.num ++ "/" ++ natRepr q.den

/-- The JS truthiness test `value.start || "any"` of `formatNumberRange`
(formatter.ts line 92): an absent (`null`/`undefined`) bound and the falsy
number `0` both give the string `"any"`. -/
def jsTruthyNumOrAny : Option ℚ → JSValue
  | none => JSValue.str "any"
  | some q => if q = 0 then JSValue.str "any" else JSValue.number q

/-- Rank used only for the termination of the mutual pair below. -/
def jsValueRank : JSValue → ℕ
  | JSValue.numberRange _ _ => 2
  | _ => 0

mutual

/-- Embedding of `formatNumberRange` (formatter.ts lines 91-93). -/
def formatNumberRange (start finish : Option ℚ) : String :=
  formatValue (jsTruthyNumOrAny start) none none ++ " to " ++
    formatValue (jsTruthyNumOrAny finish) none none
termination_by (1 : ℕ)
decreasing_by
  · rcases start with _ | q
    · simp [jsTruthyNumOrAny, jsValueRank]
    · by_cases hq : q = 0 <;> simp [jsTruthyNumOrAny, jsValueRank, hq]
  · rcases finish with _ | q
    · simp [jsTruthyNumOrAny, jsValueRank]
    · by_cases hq : q = 0 <;> simp [jsTruthyNumOrAny, jsValueRank, hq]

/-- Embedding of `formatValue` (formatter.ts lines 95-103): dispatch on the runtime shape. -/
def formatValue : JSValue → Option Timezone → Option DisplayYear → String
  | JSValue.numberRange s e, _, _ => formatNumberRange s e
  | JSValue.timeRange r, tz, dy => formatTimeRange r tz dy
  | JSValue.number q, _, _ => numToString q
  | JSValue.str s, _, _ => s
  | JSValue.undef, _, _ => "undefined"
termination_by v _ _ => jsValueRank v
decreasing_by
  · simp [jsValueRank]

end

/-- Spec-side definition (for comparison, as amended): the rendering of one
bound of a number range — `"any"` for an absent bound and for the bound `0`,
the number itself otherwise. -/
def renderRangeEnd : Option ℚ → String
  | none => "any"
  | some q => if q = 0 then "any" else numToString q

/-- A dimension, reduced to the only field the formatter reads. -/
structure Dimension where
  title : String
deriving DecidableEq, Repr

/-- Modelled from the spec: the display constants of
src/client/config/constants.ts (not in the fragment) used by the time-clause
phrases. -/
def STRINGS_previous : String := "previous"

/-- Modelled from the spec: display constant, see `STRINGS_previous`. -/
def STRINGS_current : String := "current"

/-- Modelled from the spec: display constant, see `STRINGS_previous`. -/
def STRINGS_latest : String := "latest"

/-- Modelled from the spec: display constant, see `STRINGS_previous`;
lower-cased by `getQualifiedDurationDescription` to the word `quarter`. -/
def STRINGS_quarter : String := "Quarter"

/-- A chronoshift `Duration`, reduced to the two observations the formatter
makes: its ISO string (`toString`) and `getDescription()`. -/
structure Duration where
  iso : String
  description : String
deriving DecidableEq, Repr

/-- Embedding of `getQualifiedDurationDescription` (formatter.ts lines 155-161): the
three-month duration is special-cased to the word `quarter`. -/
def getQualifiedDurationDescription (duration : Duration) : String :=
  if duration.iso = "P3M" then STRINGS_quarter.toLower else duration.description

/-- Embedding of `StringFilterAction` of the filter-clause model (external to the
fragment): the actions the formatter distinguishes. -/
inductive StringFilterAction
  | MATCH
  | CONTAINS
  | IN
deriving DecidableEq, Repr

/-- Embedding of `TimeFilterPeriod` of the filter-clause model (external to the
fragment). -/
inductive TimeFilterPeriod
  | PREVIOUS
  | CURRENT
  | LATEST
deriving DecidableEq, Repr

/-- The filter clauses the formatter consumes: a string clause with an action
and a value set, a generic value-set clause, a fixed time clause (its first
value, a time range), and a relative time clause. -/
inductive FilterClause
  | strClause (action : StringFilterAction) (values : List String)
  | valueClause (values : List JSValue)
  | fixedTime (range : TimeRange)
  | relativeTime (period : TimeFilterPeriod) (duration : Duration)
deriving DecidableEq, Repr

/-- Embedding of `isTimeFilter` of the filter-clause model. -/
def isTimeFilter : FilterClause → Bool
  | FilterClause.fixedTime _ => true
  | FilterClause.relativeTime _ _ => true
  | _ => false

/-- The clause's value set as a list of runtime values (`clause.values` of the
immutable `Set`, in insertion order). -/
def clauseValuesList : FilterClause → List JSValue
  | FilterClause.strClause _ vs => vs.map JSValue.str
  | FilterClause.valueClause vs => vs
  | FilterClause.fixedTime r => [JSValue.timeRange r]
  | FilterClause.relativeTime _ _ => []

/-- Whether the clause is a `StringFilterClause` with the given action
(the `instanceof`-and-action tests of formatter.ts lines 121-122 and 129). -/
def strClauseWithAction (clause : FilterClause) (a : StringFilterAction) : Bool :=
  match clause with
  | FilterClause.strClause act _ => act = a
  | _ => false

/-- Embedding of `getFormattedTimeClauseValues` (formatter.ts lines 140-153): a fixed time
clause formats its range; a relative clause is a period word plus the
qualified duration description.  Non-time clauses never reach this function
(it is guarded by `isTimeFilter`). -/
def getFormattedTimeClauseValues (clause : FilterClause) (tz : Timezone) : String :=
  match clause with
  | FilterClause.fixedTime r => formatTimeRange r (some tz) (some DisplayYear.IF_DIFF)
  | FilterClause.relativeTime period duration =>
    match period with
    | TimeFilterPeriod.PREVIOUS => STRINGS_previous ++ " " ++ getQualifiedDurationDescription duration
    | TimeFilterPeriod.CURRENT => STRINGS_current ++ " " ++ getQualifiedDurationDescription duration
    | TimeFilterPeriod.LATEST => STRINGS_latest ++ " " ++ getQualifiedDurationDescription duration
  | _ => ""

/-- The JS `setElements.first()` fed to `formatValue`: `undefined` on an empty
set. -/
def headOrUndef : List JSValue → JSValue
  | [] => JSValue.undef
  | v :: _ => v

/-- Embedding of `getFilterClauseValues` (formatter.ts lines 110-124): time clauses use the
time phrase; otherwise a parenthesised count for more than one value, or the
single formatted value; string MATCH clauses are wrapped in slashes and string
CONTAINS clauses in double quotes. -/
def getFilterClauseValues (clause : FilterClause) (tz : Timezone) : String :=
  if isTimeFilter clause then getFormattedTimeClauseValues clause tz
  else
    let setElements := clauseValuesList clause
    let values :=
      if setElements.length > 1 then "(" ++ natRepr setElements.length ++ ")"
      else formatValue (headOrUndef setElements) none none
    let values :=
      if strClauseWithAction clause StringFilterAction.MATCH then "/" ++ values ++ "/"
      else values
    let values :=
      if strClauseWithAction clause StringFilterAction.CONTAINS then "\"" ++ values ++ "\""
      else values
    values

/-- Embedding of `getClauseLabel` (formatter.ts lines 126-134): empty for time filters, the
bare dimension title for multi-value clauses, and the title plus delimiter
(`" ~"` for string MATCH/CONTAINS, `":"` otherwise) for the rest. -/
def getClauseLabel (clause : FilterClause) (dimension : Dimension) : String :=
  let dimensionTitle := dimension.title
  if isTimeFilter clause then ""
  else
    let delimiter :=
      if strClauseWithAction clause StringFilterAction.MATCH ∨
         strClauseWithAction clause StringFilterAction.CONTAINS then " ~" else ":"
    if (clauseValuesList clause).length > 1 then dimensionTitle
    else dimensionTitle ++ delimiter

/-- The `{title, values}` pair returned by `getFormattedClause`. -/
structure FormattedClause where
  title : String
  values : String
deriving DecidableEq, Repr

/-- Embedding of `getFormattedClause` (formatter.ts lines 136-138). -/
def getFormattedClause (dimension : Dimension) (clause : FilterClause) (tz : Timezone) :
    FormattedClause :=
  { title := getClauseLabel clause dimension, values := getFilterClauseValues clause tz }

/-- Embedding of `formatFilterClause` (formatter.ts lines 105-108).  Its
`this.getFormattedClause` resolves to the module's own exported
`getFormattedClause` (under the project's CommonJS compilation the callee's
`this` is the module exports object, which carries that export). -/
def formatFilterClause (dimension : Dimension) (clause : FilterClause) (tz : Timezone) : String :=
  let fc := getFormattedClause dimension clause tz
  if fc.title = "" then fc.values else fc.title ++ " " ++ fc.values

/-- Spec-side definition (for comparison, as amended): the decoration
`getFilterClauseValues` applies to the values component of a string clause. -/
def wrapAction (a : StringFilterAction) (s : String) : String :=
  match a with
  | StringFilterAction.MATCH => "/" ++ s ++ "/"
  | StringFilterAction.CONTAINS => "\"" ++ s ++ "\""
  | _ => s

/-- The in-memory `Measures` value of the essence model: the `multi`
ordered-unique collection is represented by its element list in insertion
order. -/
structure Measures where
  isMulti : Bool
  single : String
  multi : List String
deriving DecidableEq, Repr

/-- The persisted `MeasuresDefinitionJS` shape (formatter.ts lines 182-186). -/
structure MeasuresDefinitionJS where
  isMulti : Bool
  single : String
  multi : List String
deriving DecidableEq, Repr

/-- The immutable library's `OrderedSet.of(...xs)`: keep the first occurrence
of each element, in insertion order. -/
def orderedSetOf (xs : List String) : List String :=
  xs.foldl (fun acc x => if x ∈ acc then acc else acc ++ [x]) []

/-- Modelled from the spec: `createMeasures` of
src/common/models/essence/essence.ts (not in the fragment) constructs the
in-memory `Measures` value object from the given fields, the `multi` field
wrapping the ordered unique collection. -/
def createMeasures (isMulti : Bool) (single : String) (multi : List String) : Measures :=
  { isMulti := isMulti, single := single, multi := multi }

/-- Embedding of `measuresDefinitionConverter.fromEssenceMeasures` (formatter.ts
lines 195-196): flatten the ordered-unique collection to a plain array. -/
def fromEssenceMeasures (m : Measures) : MeasuresDefinitionJS :=
  { isMulti := m.isMulti, single := m.single, multi := m.multi }

/-- Embedding of `measuresDefinitionConverter.toEssenceMeasures` (formatter.ts
lines 197-198): rebuild the ordered unique collection and construct the
value object. -/
def toEssenceMeasures (d : MeasuresDefinitionJS) : Measures :=
  createMeasures d.isMulti d.single (orderedSetOf d.multi)

/-- Embedding of `MIN_PANEL_SIZE` (dimension-measure-panel line 29). -/
def MIN_PANEL_SIZE : ℚ := 100

/-- The pair returned by `dividerConstraints`. -/
structure DividerBounds where
  minDividerPosition : ℚ
  maxDividerPosition : ℚ
deriving DecidableEq, Repr

/-- Embedding of `dividerConstraints` (dimension-measure-panel lines 46-50). -/
def dividerConstraints (height : ℚ) : DividerBounds :=
  { minDividerPosition := min MIN_PANEL_SIZE height
    maxDividerPosition := max (height - MIN_PANEL_SIZE) 0 }

/-- Modelled from the spec: `clamp` of src/client/utils/dom/dom.ts (not in the
fragment) confines a value to an interval, upper bound applied last. -/
def clamp (x lo hi : ℚ) : ℚ := min (max x lo) hi

/-- Embedding of `DimensionMeasurePanelState` (dimension-measure-panel lines 41-44). -/
structure PanelState where
  dividerPosition : ℚ
  containerHeight : ℚ
deriving DecidableEq, Repr

/-- The initial state (dimension-measure-panel lines 54-57). -/
def initialState : PanelState :=
  { dividerPosition := MIN_PANEL_SIZE, containerHeight := 2 * MIN_PANEL_SIZE }

/-- Embedding of `calculateInitialPosition` (dimension-measure-panel lines 61-76): measure
the container, split it by the dimensions/measures count share, clamp to the
divider bounds, and replace the whole state. -/
def calculateInitialPosition (containerHeight : ℚ) (dimensionsCount measuresCount : ℕ) :
    PanelState :=
  let share : ℚ := (dimensionsCount : ℚ) / ((measuresCount : ℚ) + (dimensionsCount : ℚ))
  let b := dividerConstraints containerHeight
  { dividerPosition := clamp (containerHeight * share) b.minDividerPosition b.maxDividerPosition
    containerHeight := containerHeight }

/-- Embedding of `saveDividerPosition` (dimension-measure-panel line 78). -/
def saveDividerPosition (s : PanelState) (dividerPosition : ℚ) : PanelState :=
  { s with dividerPosition := dividerPosition }

/-- Embedding of `saveContainerRect` (dimension-measure-panel line 80): re-measure the
container height only, leaving the divider position untouched. -/
def saveContainerRect (s : PanelState) (height : ℚ) : PanelState :=
  { s with containerHeight := height }

/-- The layout invariant claimed in the spec:
`minDividerPosition ≤ dividerPosition ≤ maxDividerPosition` for the bounds of
the current container height. -/
def panelInv (s : PanelState) : Prop :=
  (dividerConstraints s.containerHeight).minDividerPosition ≤ s.dividerPosition ∧
    s.dividerPosition ≤ (dividerConstraints s.containerHeight).maxDividerPosition

instance (s : PanelState) : Decidable (panelInv s) := by
  unfold panelInv
  infer_instance

/-- The reachable states of the panel component: the initial state; the state
after the mount-time measurement (any measured nonnegative height, positive
total count of dimensions and measures); the state after a drag — the
ResizeHandle collaborator (outside the fragment, modelled from the spec)
delivers positions already clamped to the bounds of the current container
height; and the state after a window-resize re-measurement. -/
inductive Reaches : PanelState → Prop
  | init : Reaches initialState
  | mount (s : PanelState) (h : ℚ) (d m : ℕ) :
      Reaches s → 0 ≤ h → 0 < d + m → Reaches (calculateInitialPosition h d m)
  | drag (s : PanelState) (p : ℚ) :
      Reaches s →
      (dividerConstraints s.containerHeight).minDividerPosition ≤ p →
      p ≤ (dividerConstraints s.containerHeight).maxDividerPosition →
      Reaches (saveDividerPosition s p)
  | resize (s : PanelState) (h : ℚ) :
      Reaches s → 0 ≤ h → Reaches (saveContainerRect s h)

instance isTotalDescQ : IsTotal ℚ (fun a b => b ≤ a) := ⟨fun a b => le_total b a⟩

instance isTransDescQ : IsTrans ℚ (fun a b => b ≤ a) := ⟨fun _ _ _ h1 h2 => le_trans h2 h1⟩

instance isAntisymmDescQ : IsAntisymm ℚ (fun a b => b ≤ a) := ⟨fun _ _ h1 h2 => le_antisymm h2 h1⟩

/-! ## Helper lemmas -/

theorem mem_foldl_orderedSet (l : List String) (acc : List String) (x : String) :
    x ∈ l.foldl (fun acc x => if x ∈ acc then acc else acc ++ [x]) acc ↔ x ∈ acc ∨ x ∈ l := by
  induction l generalizing acc with
  | nil => simp
  | cons y ys ih =>
    simp only [List.foldl_cons]
    by_cases hy : y ∈ acc
    · rw [if_pos hy, ih]
      simp only [List.mem_cons]
      constructor
      · rintro (h | h)
        · exact Or.inl h
        · exact Or.inr (Or.inr h)
      · rintro (h | h | h)
        · exact Or.inl h
        · exact Or.inl (h ▸ hy)
        · exact Or.inr h
    · rw [if_neg hy, ih]
      simp only [List.mem_append, List.mem_cons, List.mem_singleton]
      tauto

theorem mem_orderedSetOf (l : List String) (x : String) :
    x ∈ orderedSetOf l ↔ x ∈ l := by
  unfold orderedSetOf
  rw [mem_foldl_orderedSet]
  simp

theorem formatValue_truthy (o : Option ℚ) :
    formatValue (jsTruthyNumOrAny o) none none = renderRangeEnd o := by
  rcases o with _ | q
  · simp [jsTruthyNumOrAny, renderRangeEnd, formatValue]
  · by_cases hq : q = 0 <;> simp [jsTruthyNumOrAny, renderRangeEnd, formatValue, hq]

/-! ## Claim C1 -/

/-- Claim C1: for every dimension, filter clause and timezone,
`formatFilterClause` returns a string built from the computed clause label and
values — the values alone when the label is empty, otherwise the label and the
values joined by a single space.  Totality (absence of exceptions) is inherent
in the function being defined for all inputs. -/
theorem c1_formatFilterClause_joins (d : Dimension) (c : FilterClause) (tz : Timezone) :
    formatFilterClause d c tz =
      (if getClauseLabel c d = "" then getFilterClauseValues c tz
       else getClauseLabel c d ++ " " ++ getFilterClauseValues c tz) := rfl

/-! ## Claim C4 -/

/-- Claim C4: the round trip `toEssenceMeasures (fromEssenceMeasures m)`
preserves `isMulti`, `single`, and the set of elements of `multi`; both
converters are total functions with no error path. -/
theorem c4_measures_roundtrip (m : Measures) :
    (toEssenceMeasures (fromEssenceMeasures m)).isMulti = m.isMulti ∧
    (toEssenceMeasures (fromEssenceMeasures m)).single = m.single ∧
    ∀ x : String, x ∈ (toEssenceMeasures (fromEssenceMeasures m)).multi ↔ x ∈ m.multi := by
  refine ⟨rfl, rfl, fun x => ?_⟩
  show x ∈ orderedSetOf m.multi ↔ x ∈ m.multi
  exact mem_orderedSetOf m.multi x

/-! ## Claim C3 -/

/-- Claim C3 counterexample: the closed range with `start = 0` and `end = 5`
renders as `"any to 5"`, not `"0 to 5"`, although its start is present (the
claim says `"any"` is substituted exactly for the open ends, and a present
`0` prints as `"0"` under JS string coercion). -/
theorem c3_counterexample :
    formatValue (JSValue.numberRange (some 0) (some 5)) none none = "any to 5" ∧
    numToString 0 = "0" ∧ ("any to 5" : String) ≠ "0 to 5" := by
  refine ⟨?_, by decide, by decide⟩
  simp [formatValue, formatNumberRange, jsTruthyNumOrAny, numToString]
  decide

/-- Claim C3 (amended): `formatValue` renders a `NumberRange` as
`start to end` where a bound is rendered as `"any"` when it is absent (open)
or when it equals `0` (JS truthiness), and as the number itself otherwise; in
particular the closed range 1..5 renders `"1 to 5"` and an open start with end
5 renders `"any to 5"`. -/
theorem c3_formatValue_numberRange (s e : Option ℚ) (tz : Option Timezone)
    (dy : Option DisplayYear) :
    formatValue (JSValue.numberRange s e) tz dy = renderRangeEnd s ++ " to " ++ renderRangeEnd e ∧
    formatValue (JSValue.numberRange (some 1) (some 5)) none none = "1 to 5" ∧
    formatValue (JSValue.numberRange none (some 5)) none none = "any to 5" := by
  refine ⟨?_, ?_, ?_⟩
  · rw [show formatValue (JSValue.numberRange s e) tz dy = formatNumberRange s e from by
          simp [formatValue],
        formatNumberRange, formatValue_truthy, formatValue_truthy]
  · simp [formatValue, formatNumberRange, jsTruthyNumOrAny, numToString]
    decide
  · simp [formatValue, formatNumberRange, jsTruthyNumOrAny, numToString]
    decide

/-! ## Claim C10 -/

/-- Claim C10: a `NumberRange` bound equal to `0` renders as `"any"`, exactly
as an absent bound does (JS truthiness `value.start || "any"`), so a closed
zero bound is indistinguishable from an open one; in particular 0..5 renders
`"any to 5"`. -/
theorem c10_zero_bound_renders_any (s e : Option ℚ) :
    formatNumberRange (some 0) e = formatNumberRange none e ∧
    formatNumberRange s (some 0) = formatNumberRange s none ∧
    formatNumberRange (some 0) (some 5) = "any to 5" := by
  refine ⟨?_, ?_, ?_⟩
  · rw [formatNumberRange, formatNumberRange]
    simp [jsTruthyNumOrAny]
  · rw [formatNumberRange, formatNumberRange]
    simp [jsTruthyNumOrAny]
  · simp [formatNumberRange, formatValue, jsTruthyNumOrAny, numToString]
    decide

theorem clamp_mem (x lo hi : ℚ) (h : lo ≤ hi) : lo ≤ clamp x lo hi ∧ clamp x lo hi ≤ hi := by
  unfold clamp
  exact ⟨le_min (le_max_right x lo) h, min_le_right _ _⟩

theorem clamp_inv_iff (x h : ℚ) (hh : 0 ≤ h) :
    (min 100 h ≤ clamp x (min 100 h) (max (h - 100) 0) ∧
      clamp x (min 100 h) (max (h - 100) 0) ≤ max (h - 100) 0) ↔ (h = 0 ∨ 200 ≤ h) := by
  constructor
  · rintro ⟨h1, h2⟩
    have hbound : min (100:ℚ) h ≤ max (h - 100) 0 := le_trans h1 h2
    rcases le_total (100:ℚ) h with hc1 | hc1
    · rw [min_eq_left hc1] at hbound
      rcases le_total (h - 100) (0:ℚ) with hc2 | hc2
      · rw [max_eq_right hc2] at hbound
        linarith
      · rw [max_eq_left hc2] at hbound
        right; linarith
    · rw [min_eq_right hc1] at hbound
      have hz : max (h - 100) (0:ℚ) = 0 := max_eq_right (by linarith)
      rw [hz] at hbound
      left; linarith
  · rintro (rfl | h200)
    · have hmin : min (100:ℚ) 0 = 0 := by norm_num
      have hmax : max ((0:ℚ) - 100) 0 = 0 := by norm_num
      rw [hmin, hmax]
      have h0 : clamp x 0 0 = 0 := by
        unfold clamp
        rw [min_eq_right (le_max_right x 0)]
      rw [h0]
      exact ⟨le_refl 0, le_refl 0⟩
    · have hlo : min (100:ℚ) h = 100 := min_eq_left (by linarith)
      have hhi : max (h - 100) (0:ℚ) = h - 100 := max_eq_left (by linarith)
      rw [hlo, hhi]
      exact clamp_mem x 100 (h - 100) (by linarith)

theorem panelInv_calcInit (h : ℚ) (d m : ℕ) (hh : 0 ≤ h) :
    panelInv (calculateInitialPosition h d m) ↔ (h = 0 ∨ 200 ≤ h) := by
  have key := clamp_inv_iff (h * ((d : ℚ) / ((m : ℚ) + (d : ℚ)))) h hh
  simpa [panelInv, calculateInitialPosition, dividerConstraints, MIN_PANEL_SIZE] using key

/-! ## Claim C5 -/

/-- Claim C5 counterexample: the invariant does not hold in every reachable
state.  From the initial state, a mount measurement at container height 400
(one dimension, one measure) sets the divider to 200; a window-resize
re-measurement to height 150 then leaves the divider at 200 while the new
bounds are 100..50, violating the invariant. -/
theorem c5_counterexample : ¬ ∀ s : PanelState, Reaches s → panelInv s := by
  intro hall
  have h1 : Reaches (calculateInitialPosition 400 1 1) :=
    Reaches.mount initialState 400 1 1 Reaches.init (by norm_num) (by norm_num)
  have h2 : Reaches (saveContainerRect (calculateInitialPosition 400 1 1) 150) :=
    Reaches.resize _ 150 h1 (by norm_num)
  have h3 := hall _ h2
  have hfalse : ¬ panelInv (saveContainerRect (calculateInitialPosition 400 1 1) 150) := by
    unfold panelInv saveContainerRect calculateInitialPosition dividerConstraints MIN_PANEL_SIZE clamp
    norm_num [min_def, max_def]
  exact hfalse h3

/-- Claim C5 (amended): the invariant holds in the initial state, after any
mount-time measurement whose container height is at least `2 * MIN_PANEL_SIZE`,
and after any drag within the bounds of the current container height; a
window-resize re-measurement does not re-clamp the divider position and can
leave the invariant violated (see the counterexample), as can a mount
measurement at a height strictly between 0 and `2 * MIN_PANEL_SIZE`, where the
two bounds cross. -/
theorem c5_panel_invariant_amended :
    panelInv initialState ∧
    (∀ (h : ℚ) (d m : ℕ), 2 * MIN_PANEL_SIZE ≤ h → panelInv (calculateInitialPosition h d m)) ∧
    (∀ (s : PanelState) (p : ℚ),
      (dividerConstraints s.containerHeight).minDividerPosition ≤ p →
      p ≤ (dividerConstraints s.containerHeight).maxDividerPosition →
      panelInv (saveDividerPosition s p)) := by
  refine ⟨?_, ?_, ?_⟩
  · unfold panelInv initialState dividerConstraints MIN_PANEL_SIZE
    norm_num [min_def, max_def]
  · intro h d m hh
    have h200 : (200:ℚ) ≤ h := by
      norm_num [MIN_PANEL_SIZE] at hh
      exact hh
    exact (panelInv_calcInit h d m (by linarith)).mpr (Or.inr h200)
  · intro s p h1 h2
    exact ⟨h1, h2⟩

/-- Claim C5 witness: the amended theorem applied at a mount measurement of
height 400 and at an in-bounds drag from the initial state. -/
theorem c5_witness :
    panelInv (calculateInitialPosition 400 1 1) ∧
    panelInv (saveDividerPosition initialState 100) := by
  constructor
  · exact c5_panel_invariant_amended.2.1 400 1 1 (by norm_num [MIN_PANEL_SIZE])
  · exact c5_panel_invariant_amended.2.2 initialState 100
      (by norm_num [dividerConstraints, initialState, MIN_PANEL_SIZE, min_def])
      (by norm_num [dividerConstraints, initialState, MIN_PANEL_SIZE, max_def])

/-! ## Claim C6 -/

/-- Claim C6 counterexample: a mount-time measurement at container height 150
(positive dimension and measure counts) yields bounds `min = 100`,
`max = 50` and a clamped position of 50, so the claimed
`min ≤ position ≤ max` fails for a perfectly ordinary measured height. -/
theorem c6_counterexample :
    (0:ℕ) < 1 ∧ (0:ℚ) ≤ 150 ∧ ¬ panelInv (calculateInitialPosition 150 1 1) := by
  refine ⟨by norm_num, by norm_num, ?_⟩
  unfold panelInv calculateInitialPosition dividerConstraints MIN_PANEL_SIZE clamp
  norm_num [min_def, max_def]

/-- Claim C6 (amended): immediately after the mount-time measurement the
divider position equals `clamp(containerHeight * dimensionsCount /
(dimensionsCount + measuresCount), min, max)` with the bounds derived from the
measured height, and the invariant `min ≤ position ≤ max` holds exactly when
the measured height is `0` or at least `2 * MIN_PANEL_SIZE`; for heights
strictly in between the bounds cross and the invariant is unsatisfiable. -/
theorem c6_mount_position (h : ℚ) (d m : ℕ) (_hd : 0 < d) (_hm : 0 < m) (hh : 0 ≤ h) :
    (calculateInitialPosition h d m).dividerPosition =
      clamp (h * ((d : ℚ) / ((m : ℚ) + (d : ℚ))))
        (dividerConstraints h).minDividerPosition (dividerConstraints h).maxDividerPosition ∧
    (calculateInitialPosition h d m).containerHeight = h ∧
    (panelInv (calculateInitialPosition h d m) ↔ (h = 0 ∨ 2 * MIN_PANEL_SIZE ≤ h)) := by
  refine ⟨rfl, rfl, ?_⟩
  rw [show (2 * MIN_PANEL_SIZE : ℚ) = 200 from by norm_num [MIN_PANEL_SIZE]]
  exact panelInv_calcInit h d m hh

/-- Claim C6 witness: the amended theorem applied at height 400 with one
dimension and one measure. -/
theorem c6_witness :
    (0:ℕ) < 1 ∧ (0:ℚ) ≤ 400 ∧ panelInv (calculateInitialPosition 400 1 1) := by
  refine ⟨by norm_num, by norm_num, ?_⟩
  exact (c6_mount_position 400 1 1 (by norm_num) (by norm_num) (by norm_num)).2.2.mpr
    (Or.inr (by norm_num [MIN_PANEL_SIZE]))

theorem ceilDiv2_eq_ceil (k : ℕ) : (ceilDiv2 k : ℤ) = ⌈(k : ℚ) / 2⌉ := by
  rcases Nat.even_or_odd k with ⟨r, hr⟩ | ⟨r, hr⟩
  · subst hr
    have h1 : ((r + r : ℕ) : ℚ) / 2 = ((r : ℤ) : ℚ) := by push_cast; ring
    rw [h1, Int.ceil_intCast]
    unfold ceilDiv2
    omega
  · subst hr
    have h1 : ⌈((2 * r + 1 : ℕ) : ℚ) / 2⌉ = (r : ℤ) + 1 := by
      rw [Int.ceil_eq_iff]
      constructor
      · push_cast
        linarith
      · push_cast
        linarith
    rw [h1]
    unfold ceilDiv2
    omega

theorem insertionSort_desc_eq_reverse (l : List ℚ) :
    List.insertionSort (fun a b : ℚ => b ≤ a) l =
      (List.insertionSort (fun a b : ℚ => a ≤ b) l).reverse := by
  apply List.eq_of_perm_of_sorted (r := fun a b : ℚ => b ≤ a)
  · exact (List.perm_insertionSort _ l).trans
      ((List.perm_insertionSort (fun a b : ℚ => a ≤ b) l).symm.trans
        (List.reverse_perm _).symm)
  · exact List.sorted_insertionSort _ l
  · show List.Pairwise _ _
    rw [List.pairwise_reverse]
    exact List.sorted_insertionSort _ l

theorem getMiddleNumber_eq_sort (vs : List JSNumber) (h : (filteredAbs vs).length ≠ 0) :
    getMiddleNumber vs = (List.insertionSort (fun a b : ℚ => b ≤ a) (filteredAbs vs)).getD
      (ceilDiv2 ((filteredAbs vs).length - 1)) 0 := by
  simp only [getMiddleNumber]
  rw [if_pos h]

/-! ## Claim C2 -/

/-- Claim C2 counterexample: for the two-element list `[2, 4]` the code
returns `2`, the smaller of the two middle candidates, while the claim says
the larger (`4`) is chosen on even counts: the descending sort combined with
the ceiling index selects the lower middle. -/
theorem c2_counterexample :
    getMiddleNumber [JSNumber.num 2, JSNumber.num 4] = 2 ∧ (2 : ℚ) ≠ 4 :=
  ⟨by decide, by decide⟩

/-- Claim C2 (amended): `getMiddleNumber` discards entries equal to 0, NaN or
an infinity, takes absolute values of the rest, and returns their median,
rounding DOWN on even counts (the element at ascending index `(n - 1) / 2`,
the smaller of the two middle candidates); it returns 0 when no valid entries
remain, in particular on the empty list. -/
theorem c2_getMiddleNumber_median (vs : List JSNumber) :
    getMiddleNumber vs = (if filteredAbs vs = [] then 0 else lowerMedian (filteredAbs vs)) ∧
    getMiddleNumber (JSNumber.nan :: vs) = getMiddleNumber vs ∧
    getMiddleNumber (JSNumber.posInf :: vs) = getMiddleNumber vs ∧
    getMiddleNumber (JSNumber.negInf :: vs) = getMiddleNumber vs ∧
    getMiddleNumber (JSNumber.num 0 :: vs) = getMiddleNumber vs ∧
    (∀ q : ℚ, q ≠ 0 → filteredAbs (JSNumber.num q :: vs) = |q| :: filteredAbs vs) ∧
    getMiddleNumber ([] : List JSNumber) = 0 := by
  refine ⟨?_, ?_, ?_, ?_, ?_, ?_, by decide⟩
  · by_cases hl : filteredAbs vs = []
    · rw [if_pos hl]
      simp only [getMiddleNumber, hl]
      simp
    · rw [if_neg hl]
      have hlen : (filteredAbs vs).length ≠ 0 := by
        simpa [List.length_eq_zero] using hl
      rw [getMiddleNumber_eq_sort vs hlen, insertionSort_desc_eq_reverse]
      unfold lowerMedian
      rw [List.getD_eq_getElem?_getD, List.getD_eq_getElem?_getD]
      have hlenL : (List.insertionSort (fun a b : ℚ => a ≤ b) (filteredAbs vs)).length =
          (filteredAbs vs).length := List.length_insertionSort _ _
      have hidx : ceilDiv2 ((filteredAbs vs).length - 1) <
          (List.insertionSort (fun a b : ℚ => a ≤ b) (filteredAbs vs)).length := by
        rw [hlenL]
        unfold ceilDiv2
        omega
      rw [List.getElem?_reverse hidx]
      have hix : (List.insertionSort (fun a b : ℚ => a ≤ b) (filteredAbs vs)).length - 1 -
          ceilDiv2 ((filteredAbs vs).length - 1) = ((filteredAbs vs).length - 1) / 2 := by
        rw [hlenL]
        unfold ceilDiv2
        omega
      rw [hix]
  · have h : filteredAbs (JSNumber.nan :: vs) = filteredAbs vs := by simp [filteredAbs]
    simp only [getMiddleNumber, h]
  · have h : filteredAbs (JSNumber.posInf :: vs) = filteredAbs vs := by simp [filteredAbs]
    simp only [getMiddleNumber, h]
  · have h : filteredAbs (JSNumber.negInf :: vs) = filteredAbs vs := by simp [filteredAbs]
    simp only [getMiddleNumber, h]
  · have h : filteredAbs (JSNumber.num 0 :: vs) = filteredAbs vs := by simp [filteredAbs]
    simp only [getMiddleNumber, h]
  · intro q hq
    simp [filteredAbs, hq]

/-- Claim C2 witness: the amended theorem applied at the one-element list
`[3]`, with the nonzero entry `-2` for the filtering conjunct. -/
theorem c2_witness :
    getMiddleNumber [JSNumber.nan, JSNumber.num 3] = getMiddleNumber [JSNumber.num 3] ∧
    filteredAbs [JSNumber.num (-2), JSNumber.num 3] = [2, 3] := by
  constructor
  · exact (c2_getMiddleNumber_median [JSNumber.num 3]).2.1
  · have h := (c2_getMiddleNumber_median [JSNumber.num 3]).2.2.2.2.2.1 (-2) (by norm_num)
    rw [h]
    decide

/-! ## Claim C9 -/

/-- Claim C9 counterexample: for a single-value string MATCH clause the values
component is the formatted value wrapped in slashes, not the bare formatted
value the claim describes. -/
theorem c9_counterexample :
    getFormattedClause ⟨"D"⟩ (FilterClause.strClause StringFilterAction.MATCH ["foo"]) "UTC" =
      ⟨"D ~", "/foo/"⟩ ∧ ("/foo/" : String) ≠ "foo" := by
  constructor
  · simp only [getFormattedClause, getClauseLabel, getFilterClauseValues, clauseValuesList,
      headOrUndef, strClauseWithAction, isTimeFilter, List.map, formatValue]
    decide
  · decide

/-- Claim C9 (amended): `getFormattedClause` returns the pair where the title
is empty for time filters, the bare dimension title for clauses with more than
one value, and the dimension title followed by `" ~"` (string MATCH/CONTAINS)
or `":"` (otherwise) for single-value clauses; the values component is the
parenthesised count `(N)` for more than one value and the single formatted
value otherwise, except that for string MATCH clauses it is additionally
wrapped in slashes and for string CONTAINS clauses in double quotes (the
wrapping applies to the count as well), and for time filters it is the time
phrase. -/
theorem c9_getFormattedClause_cases (d : Dimension) (tz : Timezone) :
    (∀ c : FilterClause, isTimeFilter c = true → (getFormattedClause d c tz).title = "") ∧
    (∀ vs : List JSValue, vs.length > 1 →
      getFormattedClause d (FilterClause.valueClause vs) tz =
        ⟨d.title, "(" ++ natRepr vs.length ++ ")"⟩) ∧
    (∀ v : JSValue, getFormattedClause d (FilterClause.valueClause [v]) tz =
        ⟨d.title ++ ":", formatValue v none none⟩) ∧
    (∀ (a : StringFilterAction) (vs : List String), vs.length > 1 →
      getFormattedClause d (FilterClause.strClause a vs) tz =
        ⟨d.title, wrapAction a ("(" ++ natRepr vs.length ++ ")")⟩) ∧
    (∀ (a : StringFilterAction) (s : String),
      getFormattedClause d (FilterClause.strClause a [s]) tz =
        ⟨d.title ++ (if a = StringFilterAction.MATCH ∨ a = StringFilterAction.CONTAINS
                      then " ~" else ":"),
         wrapAction a s⟩) := by
  refine ⟨?_, ?_, ?_, ?_, ?_⟩
  · intro c hc
    cases c <;> simp_all [getFormattedClause, getClauseLabel, isTimeFilter]
  · intro vs hvs
    simp [getFormattedClause, getClauseLabel, getFilterClauseValues, clauseValuesList,
      isTimeFilter, strClauseWithAction, hvs, Nat.lt_irrefl, wrapAction]
  · intro v
    simp [getFormattedClause, getClauseLabel, getFilterClauseValues, clauseValuesList,
      isTimeFilter, strClauseWithAction, headOrUndef, wrapAction]
  · intro a vs hvs
    cases a <;>
      simp [getFormattedClause, getClauseLabel, getFilterClauseValues, clauseValuesList,
        isTimeFilter, strClauseWithAction, hvs, wrapAction]
  · intro a s
    cases a <;>
      simp [getFormattedClause, getClauseLabel, getFilterClauseValues, clauseValuesList,
        isTimeFilter, strClauseWithAction, headOrUndef, wrapAction, formatValue]

/-- Claim C9 witness: the amended theorem applied at a two-value generic
clause and a two-value CONTAINS clause. -/
theorem c9_witness :
    getFormattedClause ⟨"D"⟩ (FilterClause.valueClause [JSValue.str "x", JSValue.str "y"]) "UTC" =
      ⟨"D", "(2)"⟩ ∧
    getFormattedClause ⟨"D"⟩ (FilterClause.strClause StringFilterAction.CONTAINS ["a", "b"]) "UTC" =
      ⟨"D", "\"(2)\""⟩ := by
  constructor
  · have h := (c9_getFormattedClause_cases ⟨"D"⟩ "UTC").2.1
      [JSValue.str "x", JSValue.str "y"] (by norm_num)
    rw [h]
    decide
  · have h := (c9_getFormattedClause_cases ⟨"D"⟩ "UTC").2.2.2.1
      StringFilterAction.CONTAINS ["a", "b"] (by norm_num)
    rw [h]
    decide

/-! ## Claim C7 -/

/-- Claim C7: every formatter returned by `formatterFromData` maps the
non-finite inputs NaN, +Infinity and -Infinity to the sentinel `"-"` in both
the pattern-matched and the fallback branch, and when the format string does
not match the abbreviation pattern the returned formatter applies the literal
format string directly to finite inputs; the functions are total. -/
theorem c7_formatterFromData_guard (values : List JSNumber) (format : String) :
    formatterFromData values format JSNumber.nan = "-" ∧
    formatterFromData values format JSNumber.posInf = "-" ∧
    formatterFromData values format JSNumber.negInf = "-" ∧
    (matchFormat format = none →
      ∀ q : ℚ, formatterFromData values format (JSNumber.num q) = numeralFormat q format) := by
  cases hm : matchFormat format with
  | none =>
    refine ⟨?_, ?_, ?_, fun _ q => ?_⟩ <;> simp [formatterFromData, hm]
  | some r =>
    obtain ⟨nf, sp, ft⟩ := r
    refine ⟨?_, ?_, ?_, fun hcontra q => ?_⟩
    · simp [formatterFromData, hm]
    · simp [formatterFromData, hm]
    · simp [formatterFromData, hm]
    · exact absurd hcontra (by simp)

/-- Claim C7 witness: the theorem applied at the non-matching format string
`"xyz"` and the finite input 5. -/
theorem c7_witness :
    matchFormat "xyz" = none ∧
    formatterFromData [] "xyz" JSNumber.nan = "-" ∧
    formatterFromData [] "xyz" (JSNumber.num 5) = numeralFormat 5 "xyz" := by
  refine ⟨by decide, (c7_formatterFromData_guard [] "xyz").1, ?_⟩
  exact (c7_formatterFromData_guard [] "xyz").2.2.2 (by decide) 5

theorem string_mk_data (s : String) : String.mk s.data = s := rfl

theorem digitChar_ne_space (n : ℕ) : digitChar n ≠ ' ' := by
  unfold digitChar
  split <;> decide

theorem space_not_mem_natDigitsGo (fuel : ℕ) : ∀ n : ℕ, ' ' ∉ natDigitsGo fuel n := by
  induction fuel with
  | zero => intro n; simp [natDigitsGo]
  | succ f ih =>
    intro n
    unfold natDigitsGo
    split
    · simp only [List.mem_singleton]
      exact fun h => digitChar_ne_space n h.symm
    · simp only [List.mem_append, List.mem_singleton]
      rintro (h | h)
      · exact ih (n / 10) h
      · exact digitChar_ne_space (n % 10) h.symm

theorem space_not_mem_intRepr (z : ℤ) : ' ' ∉ (intRepr z).data := by
  unfold intRepr
  split
  · rw [String.data_append]
    simp only [List.mem_append]
    rintro (h | h)
    · simp at h
    · exact space_not_mem_natDigitsGo _ _ h
  · exact space_not_mem_natDigitsGo _ _

theorem space_not_mem_renderInt (q : ℚ) : ' ' ∉ (renderInt q).data :=
  space_not_mem_intRepr (roundHalfUp q)

theorem roundHalfUp_eq_round (q : ℚ) : roundHalfUp q = round q := by
  rw [round_eq]
  unfold roundHalfUp
  have hden : ((q.den : ℚ)) ≠ 0 := by
    exact_mod_cast q.den_nz
  have hq : q + 1/2 = ((2 * q.num + (q.den : ℤ) : ℤ) : ℚ) / (((2 * q.den : ℕ)) : ℚ) := by
    conv_lhs => rw [← Rat.num_div_den q]
    push_cast
    field_simp
    ring
  rw [hq, Rat.floor_intCast_div_natCast]
  push_cast
  rfl

theorem splitSpaceAux_no_space (l : List Char) : ∀ cur : List Char, ' ' ∉ l →
    splitSpaceAux l cur = [cur ++ l] := by
  induction l with
  | nil => intro cur _; simp [splitSpaceAux]
  | cons c rest ih =>
    intro cur h
    have hc : ¬ c = ' ' := fun e => h (by simp [e])
    simp only [splitSpaceAux]
    rw [if_neg hc, ih (cur ++ [c]) (fun hh => h (by simp [hh]))]
    simp

theorem splitSpaceAux_sep (a b : List Char) (ha : ' ' ∉ a) : ∀ cur : List Char,
    splitSpaceAux (a ++ ' ' :: b) cur = (cur ++ a) :: splitSpaceAux b [] := by
  induction a with
  | nil => intro cur; simp [splitSpaceAux]
  | cons c rest ih =>
    intro cur
    have hc : ¬ c = ' ' := fun e => ha (by simp [e])
    simp only [List.cons_append, splitSpaceAux, List.append_eq]
    rw [if_neg hc, ih (fun hh => ha (by simp [hh])) (cur ++ [c])]
    simp

theorem splitSpace_sep (s u : String) (hs : ' ' ∉ s.data) (hu : ' ' ∉ u.data) :
    splitSpace (s ++ " " ++ u) = [s, u] := by
  unfold splitSpace
  have hd : (s ++ " " ++ u).data = s.data ++ ' ' :: u.data := by
    rw [String.data_append, String.data_append]
    have hsp : (" " : String).data = [' '] := rfl
    rw [hsp]
    simp
  rw [hd, splitSpaceAux_sep _ _ hs, splitSpaceAux_no_space _ _ hu]
  simp [string_mk_data]

theorem splitSpace_trailing (s : String) (hs : ' ' ∉ s.data) :
    splitSpace (s ++ " ") = [s, ""] := by
  unfold splitSpace
  have hd : (s ++ " ").data = s.data ++ ' ' :: [] := by
    rw [String.data_append]
  rw [hd, splitSpaceAux_sep _ _ hs]
  simp [splitSpaceAux, string_mk_data]

theorem matchFormatAux_type (cs : List Char) (r : List Char × List Char × Char)
    (h : matchFormatAux cs = some r) : r.2.2 = 'a' ∨ r.2.2 = 'b' := by
  unfold matchFormatAux at h
  cases hl : cs.getLast? with
  | none =>
    rw [hl] at h
    dsimp only at h
    exact absurd h (by simp)
  | some c =>
    rw [hl] at h
    dsimp only at h
    by_cases hc : c = 'a' ∨ c = 'b'
    · rw [if_pos hc] at h
      split_ifs at h with h1 h2
      all_goals
        injection h with h'
        subst h'
        exact hc
    · rw [if_neg hc] at h
      exact absurd h (by simp)

theorem matchFormat_type (format : String) (nf sp : String) (ft : Char)
    (h : matchFormat format = some (nf, sp, ft)) : ft = 'a' ∨ ft = 'b' := by
  unfold matchFormat at h
  cases haux : matchFormatAux format.data with
  | none =>
    rw [haux] at h
    exact absurd h (by simp)
  | some r =>
    rw [haux] at h
    dsimp only [Option.map] at h
    injection h with h'
    have hft : ft = r.2.2 := by
      have := congrArg (fun t => t.2.2) h'
      exact this.symm
    rw [hft]
    exact matchFormatAux_type format.data r haux

theorem abbr_no_space (p : String × ℚ) (hp : p ∈ abbrSuffixes) : ' ' ∉ p.1.data := by
  simp only [abbrSuffixes, List.mem_cons, List.not_mem_nil, or_false] at hp
  rcases hp with rfl | rfl | rfl | rfl <;> decide

theorem byte_no_space (p : String × ℚ) (hp : p ∈ byteSuffixes) : ' ' ∉ p.1.data := by
  simp only [byteSuffixes, List.mem_cons, List.not_mem_nil, or_false] at hp
  rcases hp with rfl | rfl | rfl | rfl | rfl | rfl | rfl | rfl | rfl <;> decide

theorem split_numeralFormat_unit (ft : Char) (hft : ft = 'a' ∨ ft = 'b') (q : ℚ) :
    (splitSpace (numeralFormat q ("0 " ++ String.singleton ft))).getD 1 "" = unitChoice ft q := by
  rcases hft with rfl | rfl
  · have hfmt : ("0 " ++ String.singleton 'a') = "0 a" := by decide
    rw [hfmt]
    unfold numeralFormat
    rw [if_pos rfl]
    unfold numeralAbbr unitChoice
    rw [if_neg (by decide : ¬ ('a' : Char) = 'b')]
    cases hf : abbrSuffixes.find? (fun p => decide (p.2 ≤ |q|)) with
    | some p =>
      have hp := List.mem_of_find?_eq_some hf
      rw [splitSpace_sep _ _ (space_not_mem_renderInt _) (abbr_no_space p hp)]
      simp [List.getD, Option.elim]
    | none =>
      rw [splitSpace_trailing _ (space_not_mem_renderInt _)]
      simp [List.getD, Option.elim]
  · have hfmt : ("0 " ++ String.singleton 'b') = "0 b" := by decide
    rw [hfmt]
    unfold numeralFormat
    rw [if_neg (by decide : ¬ ("0 b" : String) = "0 a"), if_pos rfl]
    unfold numeralBytes unitChoice
    rw [if_pos rfl]
    cases hf : byteSuffixes.find? (fun p => decide (p.2 ≤ |q|)) with
    | some p =>
      have hp := List.mem_of_find?_eq_some hf
      rw [splitSpace_sep _ _ (space_not_mem_renderInt _) (byte_no_space p hp)]
      simp [List.getD, Option.elim]
    | none =>
      rw [splitSpace_trailing _ (space_not_mem_renderInt _)]
      simp [List.getD, Option.elim]

theorem string_append_empty (s : String) : s ++ "" = s := by
  apply String.ext
  rw [String.data_append]
  simp

theorem byte_find_none_iff (q : ℚ) :
    byteSuffixes.find? (fun p => decide (p.2 ≤ |q|)) = none ↔ |q| < 1 := by
  rw [List.find?_eq_none]
  constructor
  · intro h
    have hb := h ("B", 1) (by simp [byteSuffixes])
    simp only [decide_eq_true_eq] at hb
    exact lt_of_not_ge hb
  · intro h p hp
    simp only [decide_eq_true_eq]
    simp only [byteSuffixes, List.mem_cons, List.not_mem_nil, or_false] at hp
    rcases hp with rfl | rfl | rfl | rfl | rfl | rfl | rfl | rfl | rfl <;>
      · intro hle
        norm_num at hle
        linarith

theorem scalesLookup_unitChoice_a (q : ℚ) :
    scalesLookup 'a' (unitChoice 'a' q) = some (libScale 'a' q) := by
  unfold unitChoice libScale
  rw [if_neg (by decide : ¬ ('a' : Char) = 'b'), if_neg (by decide : ¬ ('a' : Char) = 'b')]
  cases hf : abbrSuffixes.find? (fun p => decide (p.2 ≤ |q|)) with
  | none =>
    simp only [Option.elim]
    decide
  | some p =>
    have hp := List.mem_of_find?_eq_some hf
    simp only [Option.elim]
    simp only [abbrSuffixes, List.mem_cons, List.not_mem_nil, or_false] at hp
    rcases hp with rfl | rfl | rfl | rfl <;> decide

theorem scalesLookup_unitChoice_b_ge (q : ℚ) (h : 1 ≤ |q|) :
    scalesLookup 'b' (unitChoice 'b' q) = some (libScale 'b' q) := by
  unfold unitChoice libScale
  rw [if_pos rfl, if_pos rfl]
  cases hf : byteSuffixes.find? (fun p => decide (p.2 ≤ |q|)) with
  | none =>
    have := (byte_find_none_iff q).mp hf
    linarith
  | some p =>
    have hp := List.mem_of_find?_eq_some hf
    simp only [Option.elim]
    simp only [byteSuffixes, List.mem_cons, List.not_mem_nil, or_false] at hp
    rcases hp with rfl | rfl | rfl | rfl | rfl | rfl | rfl | rfl | rfl <;> decide

theorem scalesLookup_unitChoice_b_lt (q : ℚ) (h : |q| < 1) :
    unitChoice 'b' q = "" ∧ scalesLookup 'b' "" = none := by
  constructor
  · unfold unitChoice
    rw [if_pos rfl, (byte_find_none_iff q).mpr h]
    rfl
  · decide

theorem digitChar_ne_N (n : ℕ) : digitChar n ≠ 'N' := by
  unfold digitChar
  split <;> decide

theorem N_not_mem_natDigitsGo (fuel : ℕ) : ∀ n : ℕ, 'N' ∉ natDigitsGo fuel n := by
  induction fuel with
  | zero => intro n; simp [natDigitsGo]
  | succ f ih =>
    intro n
    unfold natDigitsGo
    split
    · simp only [List.mem_singleton]
      exact fun h => digitChar_ne_N n h.symm
    · simp only [List.mem_append, List.mem_singleton]
      rintro (h | h)
      · exact ih (n / 10) h
      · exact digitChar_ne_N (n % 10) h.symm

theorem N_not_mem_intRepr (z : ℤ) : 'N' ∉ (intRepr z).data := by
  unfold intRepr
  split
  · rw [String.data_append]
    simp only [List.mem_append]
    rintro (h | h)
    · simp at h
    · exact N_not_mem_natDigitsGo _ _ h
  · exact N_not_mem_natDigitsGo _ _

theorem renderNaN_ne_renderPlain (fmt : String) (q : ℚ) : renderNaN fmt ≠ renderPlain fmt q := by
  intro h
  have hdata := congrArg String.data h
  have hN : 'N' ∈ (renderNaN fmt).data := by
    unfold renderNaN
    split <;> decide
  rw [hdata] at hN
  have hnot : 'N' ∉ (renderPlain fmt q).data := by
    unfold renderPlain
    split <;> exact N_not_mem_intRepr _
  exact hnot hN

/-! ## Claim C8 -/

/-- Claim C8 counterexample: at the empty values list the representative
magnitude `getMiddleNumber [] = 0` is below the byte format's base scale, so
the library emits an empty suffix, the extracted unit is the empty string,
`scales.b` has no key for it (`scales.a` does, line 32; `scales.b`,
lines 38-48, does not), and the returned formatter degrades every finite
input to the NaN rendering — which is not the number-format of the input
divided by any scale of the table.  This refutes the claimed universal
"maps every finite input n to the number-format of n/scale with the unit
suffix appended". -/
theorem c8_counterexample :
    matchFormat "0,0 b" = some ("0,0", " ", 'b') ∧
    getMiddleNumber [] = 0 ∧
    (splitSpace (numeralFormat 0 ("0 " ++ String.singleton 'b'))).getD 1 "" = "" ∧
    scalesLookup 'b' "" = none ∧
    formatterFromData [] "0,0 b" (JSNumber.num 5) = renderNaN "0,0" ∧
    renderNaN "0,0" ∉ scalesB.map (fun p => numeralFormat (5 / p.2) "0,0") := by
  refine ⟨by decide, by decide, by decide, by decide, by decide, ?_⟩
  intro hmem
  obtain ⟨p, hp, heq⟩ := List.mem_map.1 hmem
  have hplain : numeralFormat (5 / p.2) "0,0" = renderPlain "0,0" (5 / p.2) := by
    unfold numeralFormat
    rw [if_neg (by decide : ¬ ("0,0" : String) = "0 a"),
        if_neg (by decide : ¬ ("0,0" : String) = "0 b")]
  rw [hplain] at heq
  exact renderNaN_ne_renderPlain "0,0" (5 / p.2) heq.symm

/-- Claim C8 (amended): when the format string matches the abbreviation
pattern, `formatterFromData` extracts from the library's formatting of the
representative magnitude `getMiddleNumber values` exactly the unit the
library's own unit selection chooses at that magnitude.  Whenever the
`scales` table has an entry for that unit — always, for type `a`; exactly
when the magnitude is at least 1, for type `b` — that entry is the fixed
scale, it agrees with the library's own divisor, and the returned formatter
maps every finite input `q` to the number-format of `q / scale` with the unit
suffix appended through the matched spacing.  When the lookup misses (type
`b` with magnitude below 1, in particular the magnitude 0 of an empty values
list) the unit is empty, the scale is `undefined`, and the formatter maps
every finite input to the NaN rendering. -/
theorem c8_formatterFromData_unit (values : List JSNumber) (format nf sp : String) (ft : Char)
    (hm : matchFormat format = some (nf, sp, ft)) :
    (splitSpace (numeralFormat (getMiddleNumber values) ("0 " ++ String.singleton ft))).getD 1 ""
        = unitChoice ft (getMiddleNumber values) ∧
    (∀ s : ℚ, scalesLookup ft (unitChoice ft (getMiddleNumber values)) = some s →
      s = libScale ft (getMiddleNumber values) ∧
      ∀ q : ℚ, formatterFromData values format (JSNumber.num q) =
        numeralFormat (q / s) nf ++
          (if unitChoice ft (getMiddleNumber values) = "" then ""
           else sp ++ unitChoice ft (getMiddleNumber values))) ∧
    (scalesLookup ft (unitChoice ft (getMiddleNumber values)) = none →
      unitChoice ft (getMiddleNumber values) = "" ∧
      ∀ q : ℚ, formatterFromData values format (JSNumber.num q) = renderNaN nf) ∧
    (ft = 'a' →
      scalesLookup 'a' (unitChoice 'a' (getMiddleNumber values))
        = some (libScale 'a' (getMiddleNumber values))) ∧
    (ft = 'b' →
      (scalesLookup 'b' (unitChoice 'b' (getMiddleNumber values)) = none
        ↔ |getMiddleNumber values| < 1)) := by
  have hft := matchFormat_type format nf sp ft hm
  have hunit := split_numeralFormat_unit ft hft (getMiddleNumber values)
  have hmiss : ft = 'b' →
      (scalesLookup 'b' (unitChoice 'b' (getMiddleNumber values)) = none
        ↔ |getMiddleNumber values| < 1) := by
    rintro rfl
    constructor
    · intro hnone
      by_contra hge
      rw [scalesLookup_unitChoice_b_ge _ (le_of_not_lt hge)] at hnone
      exact absurd hnone (by simp)
    · intro hlt
      obtain ⟨hu, hl⟩ := scalesLookup_unitChoice_b_lt _ hlt
      rw [hu]
      exact hl
  refine ⟨hunit, fun s hs => ?_, fun hnone => ?_, fun hfa => ?_, hmiss⟩
  · constructor
    · rcases hft with rfl | rfl
      · have := scalesLookup_unitChoice_a (getMiddleNumber values)
        rw [hs] at this
        exact Option.some.inj this
      · rcases lt_or_ge (|getMiddleNumber values|) 1 with hlt | hge
        · obtain ⟨hu, hl⟩ := scalesLookup_unitChoice_b_lt _ hlt
          rw [hu, hl] at hs
          exact absurd hs (by simp)
        · have := scalesLookup_unitChoice_b_ge _ hge
          rw [hs] at this
          exact Option.some.inj this
    · intro q
      simp only [formatterFromData, hm]
      rw [hunit, hs]
  · have hu : unitChoice ft (getMiddleNumber values) = "" := by
      rcases hft with rfl | rfl
      · rw [scalesLookup_unitChoice_a] at hnone
        exact absurd hnone (by simp)
      · rcases lt_or_ge (|getMiddleNumber values|) 1 with hlt | hge
        · exact (scalesLookup_unitChoice_b_lt _ hlt).1
        · rw [scalesLookup_unitChoice_b_ge _ hge] at hnone
          exact absurd hnone (by simp)
    refine ⟨hu, fun q => ?_⟩
    simp only [formatterFromData, hm]
    rw [hunit, hnone, hu]
    simp only [if_pos rfl]
    exact string_append_empty _
  · subst hfa
    exact scalesLookup_unitChoice_a _

/-- Claim C8 witness: the amended theorem applied at the byte format
`"0,0 b"` with representative value 2048 (derived unit `KB`, scale 1024,
in-table case) and at the empty values list (out-of-table case, every finite
input degrading to the NaN rendering). -/
theorem c8_witness :
    matchFormat "0,0 b" = some ("0,0", " ", 'b') ∧
    unitChoice 'b' (getMiddleNumber [JSNumber.num 2048]) = "KB" ∧
    (1024 : ℚ) = libScale 'b' (getMiddleNumber [JSNumber.num 2048]) ∧
    formatterFromData [JSNumber.num 2048] "0,0 b" (JSNumber.num 5120) =
      numeralFormat (5120 / 1024) "0,0" ++
        (if unitChoice 'b' (getMiddleNumber [JSNumber.num 2048]) = "" then ""
         else " " ++ unitChoice 'b' (getMiddleNumber [JSNumber.num 2048])) ∧
    formatterFromData [] "0,0 b" (JSNumber.num 7) = renderNaN "0,0" := by
  have h := c8_formatterFromData_unit [JSNumber.num 2048] "0,0 b" "0,0" " " 'b' (by decide)
  have hsome : scalesLookup 'b' (unitChoice 'b' (getMiddleNumber [JSNumber.num 2048]))
      = some 1024 := by decide
  obtain ⟨hs, hq⟩ := h.2.1 1024 hsome
  have h0 := c8_formatterFromData_unit [] "0,0 b" "0,0" " " 'b' (by decide)
  have hnone : scalesLookup 'b' (unitChoice 'b' (getMiddleNumber [])) = none := by decide
  exact ⟨by decide, by decide, hs, hq 5120, (h0.2.2.1 hnone).2 7⟩
